import Mathlib

set_option maxHeartbeats 1000000

/-!
Shallow embedding of the OnlyPlans post controller and its data model.

The controller functions (`likePost`, `unlikePost`, `createComment`,
`getPostById`, `getFeed`) are translated from the post routes source file.
The storage collaborator (MongoDB via mongoose) is modelled as explicit
lists of records inside a state `St`; `findById` / `findOne` become
`List.find?`, inserting a document appends it, and `save` on a fetched
document writes it back at its id.  Freshly inserted documents receive the
id `St.nextId`, which is then bumped; real ObjectIds are globally fresh,
which this models.  Query-string handling (`req.query.limit || 25`) and
number parsing happen at the transport boundary; the model takes the
effective numeric arguments directly.  MongoDB truncates the fractional
limit/skip values produced by the source's `limit/2 + limit%2` on odd
input to integers, which `Nat` division (floor) models.
-/

inductive PostType where
  | Normal
  | Meal
  | MealPlan
  | Workout
  deriving DecidableEq, Repr

inductive AspectRatio where
  | square
  | landscape
  | portrait
  deriving DecidableEq, Repr

structure User where
  id : Nat
  handle : String
  profilePicture : String
  role : String
  deriving DecidableEq, Repr

/-- Meal record.  Modelled from the spec: the `models/meal` file is not among
the provided sources; the spec and the redaction code in `getPostById` use the
`ingredients` and `steps` list fields. -/
structure Meal where
  id : Nat
  name : String
  ingredients : List String
  steps : List String
  deriving DecidableEq, Repr

/-- Post record, following the `PostSchema` mongoose schema. -/
structure Post where
  id : Nat
  creator : Nat
  tier : Option Nat
  title : String
  description : String
  media : List String
  documents : List String
  likedCount : Int
  commentCount : Int
  date : Nat
  type : PostType
  meal : Option Nat
  mealPlan : Option Nat
  aspectRatio : Option AspectRatio
  deriving DecidableEq, Repr

structure Like where
  id : Nat
  postId : Nat
  likedBy : Nat
  deriving DecidableEq, Repr

structure Comment where
  id : Nat
  postId : Nat
  userId : Nat
  body : String
  repliedTo : Option Nat
  replyCount : Int
  deriving DecidableEq, Repr

/-- The durable-storage state shared by all requests. -/
structure St where
  users : List User
  posts : List Post
  meals : List Meal
  likes : List Like
  comments : List Comment
  nextId : Nat
  deriving DecidableEq, Repr

inductive Err where
  | notFound
  | typeError
  deriving DecidableEq, Repr

def findPost (s : St) (pid : Nat) : Option Post :=
  s.posts.find? fun p => p.id == pid

def findUser (s : St) (uid : Nat) : Option User :=
  s.users.find? fun u => u.id == uid

def findMeal (s : St) (mid : Nat) : Option Meal :=
  s.meals.find? fun m => m.id == mid

def findComment (s : St) (cid : Nat) : Option Comment :=
  s.comments.find? fun c => c.id == cid

/-- `Like.findOne({postId, likedBy})`. -/
def findLike (s : St) (pid uid : Nat) : Option Like :=
  s.likes.find? fun l => l.postId == pid && l.likedBy == uid

/-- `post.save()` on a fetched document: write it back at its id. -/
def savePost (s : St) (p : Post) : St :=
  { s with posts := s.posts.map fun q => if q.id == p.id then p else q }

/-- `comment.save()` on a fetched document: write it back at its id. -/
def saveComment (s : St) (c : Comment) : St :=
  { s with comments := s.comments.map fun q => if q.id == c.id then c else q }

/-- `likePost`: 404 if the post is absent; create the Like and increment the
counter only when no Like for `(postId, userId)` exists; save the post
unconditionally and respond with it. -/
def likePost (s : St) (pid uid : Nat) : Except Err (Post × St) :=
  match findPost s pid with
  | none => .error .notFound
  | some post =>
    match findLike s pid uid with
    | some _ => .ok (post, savePost s post)
    | none =>
      let like : Like := { id := s.nextId, postId := pid, likedBy := uid }
      let s1 : St := { s with likes := s.likes ++ [like], nextId := s.nextId + 1 }
      let post1 : Post := { post with likedCount := post.likedCount + 1 }
      .ok (post1, savePost s1 post1)

/-- `unlikePost`: 404 if the post is absent; delete the Like and decrement the
counter only when a Like for `(postId, userId)` exists; save the post
unconditionally and respond with it. -/
def unlikePost (s : St) (pid uid : Nat) : Except Err (Post × St) :=
  match findPost s pid with
  | none => .error .notFound
  | some post =>
    match findLike s pid uid with
    | none => .ok (post, savePost s post)
    | some lk =>
      let s1 : St := { s with likes := s.likes.eraseP fun l => l.id == lk.id }
      let post1 : Post := { post with likedCount := post.likedCount - 1 }
      .ok (post1, savePost s1 post1)

/-- Observable events of one `createComment` request, in program order. -/
inductive Ev where
  | saveComment (c : Comment)
  | savePost (p : Post)
  | respond (c : Comment)
  deriving DecidableEq, Repr

/-- `createComment`: 404 if the post is absent; if `repliedTo` is given it
must resolve to a comment of the same post, else 404; create the comment,
increment `commentCount`, save the post, respond, and afterwards (still
within the request) increment the parent's `replyCount` and save it.
The returned event list records the order of the visible effects. -/
def createComment (s : St) (pid uid : Nat) (body : String) (repliedTo : Option Nat) :
    Except Err (Comment × St × List Ev) :=
  match findPost s pid with
  | none => .error .notFound
  | some post =>
    let rply : Option Comment := repliedTo.bind (findComment s)
    let bad : Bool :=
      match repliedTo, rply with
      | some _, none => true
      | some _, some c => !(c.postId == pid)
      | none, _ => false
    if bad then .error .notFound
    else
      let comment : Comment :=
        { id := s.nextId, postId := pid, userId := uid, body := body,
          repliedTo := repliedTo, replyCount := 0 }
      let s1 : St := { s with comments := s.comments ++ [comment], nextId := s.nextId + 1 }
      let post1 : Post := { post with commentCount := post.commentCount + 1 }
      let s2 : St := savePost s1 post1
      match rply with
      | some parent =>
        let parent1 : Comment := { parent with replyCount := parent.replyCount + 1 }
        .ok (comment, saveComment s2 parent1,
          [Ev.saveComment comment, Ev.savePost post1, Ev.respond comment,
            Ev.saveComment parent1])
      | none =>
        .ok (comment, s2, [Ev.saveComment comment, Ev.savePost post1, Ev.respond comment])

/-- A post as returned by `getPostById`: the post plus its populated meal. -/
structure PopulatedPost where
  post : Post
  mealDoc : Option Meal
  deriving DecidableEq, Repr

/-- `getPostById`: populate the meal; when the post is gated and the viewer is
anonymous, rebuild the response with the meal's `ingredients` and `steps`
emptied.  When the gated-and-anonymous branch finds no populated meal, the
source dereferences `null` (`post.meal.toObject()`), throws, and the request
ends in the error handler; modelled as `Err.typeError`. -/
def getPostById (s : St) (pid : Nat) (viewer : Option Nat) : Except Err PopulatedPost :=
  match findPost s pid with
  | none => .error .notFound
  | some post =>
    let mealDoc : Option Meal := post.meal.bind (findMeal s)
    if post.tier.isSome && viewer.isNone then
      match mealDoc with
      | none => .error .typeError
      | some m =>
        .ok { post := post, mealDoc := some { m with ingredients := [], steps := [] } }
    else
      .ok { post := post, mealDoc := mealDoc }

/-- The per-bucket page size `limit/2 + limit%2` of the source (floor). -/
def half (n : Nat) : Nat := n / 2 + n % 2

/-- MongoDB `limit(n)`: `n = 0` means "no limit". -/
def mongoLimit (n : Nat) (l : List Post) : List Post :=
  if n == 0 then l else l.take n

/-- Insert a post into a list already sorted by `date` descending. -/
def insertByDateDesc (p : Post) : List Post → List Post
  | [] => [p]
  | q :: rest => if q.date < p.date then p :: q :: rest else q :: insertByDateDesc p rest

/-- `sort({date:-1})` of the storage collaborator. -/
def sortByDateDesc : List Post → List Post
  | [] => []
  | p :: rest => insertByDateDesc p (sortByDateDesc rest)

structure FeedEntry where
  post : Post
  locked : Bool
  userHandle : String
  userProfilePicture : String
  userRole : String
  deriving DecidableEq, Repr

/-- Build one feed entry: populate the creator, flag `locked = !!post.tier`,
copy the creator's display fields.  A dangling creator reference makes the
source throw on `user.handle`; modelled as `none`. -/
def feedEntry (s : St) (p : Post) : Option FeedEntry :=
  match findUser s p.creator with
  | none => none
  | some u =>
    some { post := p, locked := p.tier.isSome, userHandle := u.handle,
           userProfilePicture := u.profilePicture, userRole := u.role }

/-- Anonymous branch, free bucket: `Post.find({tier:null}).sort({date:-1})
.limit(limit/2 + limit%2).skip(skip/2 + skip%2)`. -/
def freeBucketAnon (s : St) (limit skip : Nat) : List Post :=
  mongoLimit (half limit)
    ((sortByDateDesc (s.posts.filter fun p => p.tier.isNone)).drop (half skip))

/-- Anonymous branch, gated bucket: `Post.find({tier:{$ne:null}})` with the
same sort/limit/skip. -/
def gatedBucketAnon (s : St) (limit skip : Nat) : List Post :=
  mongoLimit (half limit)
    ((sortByDateDesc (s.posts.filter fun p => p.tier.isSome)).drop (half skip))

/-- The `!req.user` branch of `getFeed`. -/
def getFeedAnon (s : St) (limit skip : Nat) : Option (List FeedEntry) :=
  (freeBucketAnon s limit skip ++ gatedBucketAnon s limit skip).mapM (feedEntry s)

/-- Authenticated branch, free bucket (textually identical in the source). -/
def freeBucketAuth (s : St) (limit skip : Nat) : List Post :=
  mongoLimit (half limit)
    ((sortByDateDesc (s.posts.filter fun p => p.tier.isNone)).drop (half skip))

/-- Authenticated branch, gated bucket (textually identical in the source). -/
def gatedBucketAuth (s : St) (limit skip : Nat) : List Post :=
  mongoLimit (half limit)
    ((sortByDateDesc (s.posts.filter fun p => p.tier.isSome)).drop (half skip))

/-- The `else` (authenticated) branch of `getFeed`. -/
def getFeedAuth (s : St) (limit skip : Nat) : Option (List FeedEntry) :=
  (freeBucketAuth s limit skip ++ gatedBucketAuth s limit skip).mapM (feedEntry s)

/-- `getFeed`, dispatching on whether a user identity was resolved. -/
def getFeed (s : St) (viewer : Option Nat) (limit skip : Nat) : Option (List FeedEntry) :=
  match viewer with
  | none => getFeedAnon s limit skip
  | some _ => getFeedAuth s limit skip

def countLikes (s : St) (pid : Nat) : Nat :=
  s.likes.countP fun l => l.postId == pid

def countPair (s : St) (pid uid : Nat) : Nat :=
  s.likes.countP fun l => l.postId == pid && l.likedBy == uid

def countReplies (s : St) (cid : Nat) : Nat :=
  s.comments.countP fun c => c.repliedTo == some cid

/-- Denormalized-counter invariant: every post's `likedCount` equals the
number of Like records referencing it. -/
def likeInv (s : St) : Prop :=
  ∀ p ∈ s.posts, p.likedCount = (countLikes s p.id : Int)

/-- Denormalized-counter invariant: every top-level comment's `replyCount`
equals the number of Comment records replying to it. -/
def replyInv (s : St) : Prop :=
  ∀ c ∈ s.comments, c.repliedTo = none → c.replyCount = (countReplies s c.id : Int)

/-- Storage well-formedness: ids are unique and below the fresh-id counter,
and reply references point below the fresh-id counter. -/
def WF (s : St) : Prop :=
  (s.likes.map Like.id).Nodup ∧
  (s.comments.map Comment.id).Nodup ∧
  (∀ l ∈ s.likes, l.id < s.nextId) ∧
  (∀ c ∈ s.comments, c.id < s.nextId) ∧
  (∀ c ∈ s.comments, c.repliedTo.all (fun r => decide (r < s.nextId)) = true)

inductive Op where
  | like (pid uid : Nat)
  | unlike (pid uid : Nat)
  deriving DecidableEq, Repr

/-- Effect of one like/unlike request on storage (failed requests leave the
storage unchanged). -/
def applyOp (s : St) : Op → St
  | .like pid uid =>
    match likePost s pid uid with
    | .ok r => r.2
    | .error _ => s
  | .unlike pid uid =>
    match unlikePost s pid uid with
    | .ok r => r.2
    | .error _ => s

def applyOps (s : St) : List Op → St
  | [] => s
  | op :: rest => applyOps (applyOp s op) rest

structure CArg where
  pid : Nat
  uid : Nat
  body : String
  repliedTo : Option Nat
  deriving DecidableEq, Repr

/-- Effect of one `createComment` request on storage. -/
def applyCommentOp (s : St) (a : CArg) : St :=
  match createComment s a.pid a.uid a.body a.repliedTo with
  | .ok r => r.2.1
  | .error _ => s

def applyComments (s : St) : List CArg → St
  | [] => s
  | a :: rest => applyComments (applyCommentOp s a) rest

def DateSortedDesc (l : List Post) : Prop :=
  l.Pairwise fun a b => b.date ≤ a.date

/-- The comment document `createComment` inserts. -/
def mkComment (nid pid uid : Nat) (body : String) (repliedTo : Option Nat) : Comment :=
  { id := nid, postId := pid, userId := uid, body := body,
    repliedTo := repliedTo, replyCount := 0 }

/-! Concrete fixture states used to exercise the operations. -/

def cexUser : User := { id := 100, handle := "h", profilePicture := "pp", role := "Creator" }

def cexFree : Post :=
  { id := 0, creator := 100, tier := none, title := "t", description := "d",
    media := [], documents := [], likedCount := 0, commentCount := 0, date := 2,
    type := PostType.Normal, meal := none, mealPlan := none, aspectRatio := none }

def cexGated : Post := { cexFree with id := 1, tier := some 7, date := 1 }

def cexSt : St :=
  { users := [cexUser], posts := [cexFree, cexGated], meals := [], likes := [],
    comments := [], nextId := 200 }

def cexEntry1 : FeedEntry :=
  { post := cexFree, locked := false, userHandle := "h", userProfilePicture := "pp",
    userRole := "Creator" }

def cexEntry2 : FeedEntry :=
  { post := cexGated, locked := true, userHandle := "h", userProfilePicture := "pp",
    userRole := "Creator" }

def w1Post : Post := { cexFree with id := 1 }

def w1St : St :=
  { users := [], posts := [w1Post], meals := [], likes := [], comments := [], nextId := 50 }

def w2Post : Post := { cexFree with id := 1 }

def w2St : St :=
  { users := [], posts := [w2Post], meals := [], likes := [], comments := [], nextId := 10 }

def w3C : Comment :=
  { id := 1, postId := 9, userId := 5, body := "x", repliedTo := none, replyCount := 0 }

def w3St : St :=
  { users := [], posts := [cexFree], meals := [], likes := [], comments := [w3C], nextId := 2 }

def w5F1 : Post := { cexFree with id := 1, date := 5 }

def w5F2 : Post := { cexFree with id := 2, date := 3 }

def w5F3 : Post := { cexFree with id := 3, date := 1 }

def w5G1 : Post := { cexFree with id := 4, tier := some 7, date := 6 }

def w5G2 : Post := { cexFree with id := 5, tier := some 7, date := 4 }

def w5G3 : Post := { cexFree with id := 6, tier := some 7, date := 2 }

def w5St : St :=
  { users := [cexUser], posts := [w5F2, w5G1, w5F1, w5G3, w5F3, w5G2], meals := [],
    likes := [], comments := [], nextId := 99 }

def w6Meal : Meal := { id := 20, name := "m", ingredients := ["a", "b"], steps := ["s1"] }

def w6Post : Post := { cexFree with tier := some 3, type := PostType.Meal, meal := some 20 }

def w6St : St :=
  { users := [], posts := [w6Post], meals := [w6Meal], likes := [], comments := [],
    nextId := 30 }

def w7Post : Post := { cexFree with likedCount := 2 }

def w7St : St :=
  { users := [], posts := [w7Post], meals := [], likes := [], comments := [], nextId := 11 }

def w8Post : Post := cexFree

def w8Parent : Comment :=
  { id := 1, postId := 0, userId := 5, body := "c", repliedTo := none, replyCount := 0 }

def w8C : Comment :=
  { id := 2, postId := 0, userId := 7, body := "r", repliedTo := some 1, replyCount := 0 }

def w8St : St :=
  { users := [], posts := [w8Post], meals := [], likes := [], comments := [w8Parent],
    nextId := 2 }

def w8Parent1 : Comment := { w8Parent with replyCount := w8Parent.replyCount + 1 }

def w8Tr : List Ev :=
  [Ev.saveComment w8C, Ev.savePost { w8Post with commentCount := w8Post.commentCount + 1 },
    Ev.respond w8C, Ev.saveComment w8Parent1]

def w10Post : Post := { cexFree with tier := some 4, meal := none }

def w10St : St :=
  { users := [], posts := [w10Post], meals := [], likes := [], comments := [], nextId := 12 }

instance (s : St) : Decidable (likeInv s) := by
  unfold likeInv; infer_instance

instance (s : St) : Decidable (replyInv s) := by
  unfold replyInv; infer_instance

instance (s : St) : Decidable (WF s) := by
  unfold WF; infer_instance

instance (l : List Post) : Decidable (DateSortedDesc l) := by
  unfold DateSortedDesc; infer_instance

lemma findPost_eq_some {s : St} {pid : Nat} {p : Post} (h : findPost s pid = some p) :
    p ∈ s.posts ∧ p.id = pid := by
  refine ⟨List.mem_of_find?_eq_some h, ?_⟩
  simpa using List.find?_some h

lemma findLike_eq_some {s : St} {pid uid : Nat} {lk : Like} (h : findLike s pid uid = some lk) :
    lk ∈ s.likes ∧ lk.postId = pid ∧ lk.likedBy = uid := by
  refine ⟨List.mem_of_find?_eq_some h, ?_⟩
  simpa using List.find?_some h

lemma findComment_eq_some {s : St} {cid : Nat} {c : Comment} (h : findComment s cid = some c) :
    c ∈ s.comments ∧ c.id = cid := by
  refine ⟨List.mem_of_find?_eq_some h, ?_⟩
  simpa using List.find?_some h

@[simp] lemma savePost_users (s : St) (p : Post) : (savePost s p).users = s.users := rfl

@[simp] lemma savePost_likes (s : St) (p : Post) : (savePost s p).likes = s.likes := rfl

@[simp] lemma savePost_comments (s : St) (p : Post) : (savePost s p).comments = s.comments := rfl

@[simp] lemma savePost_nextId (s : St) (p : Post) : (savePost s p).nextId = s.nextId := rfl

@[simp] lemma saveComment_users (s : St) (c : Comment) : (saveComment s c).users = s.users := rfl

@[simp] lemma saveComment_posts (s : St) (c : Comment) : (saveComment s c).posts = s.posts := rfl

@[simp] lemma saveComment_likes (s : St) (c : Comment) : (saveComment s c).likes = s.likes := rfl

@[simp] lemma saveComment_nextId (s : St) (c : Comment) :
    (saveComment s c).nextId = s.nextId := rfl

/-- Erasing the unique like with a given id removes exactly that record from
every count. -/
lemma countP_eraseP_like (q : Like → Bool) :
    ∀ (l : List Like) (lk : Like), lk ∈ l → (l.map Like.id).Nodup →
      (l.eraseP fun x => x.id == lk.id).countP q + (if q lk then 1 else 0) = l.countP q := by
  intro l
  induction l with
  | nil => intro lk h; cases h
  | cons a t ih =>
    intro lk hmem hnd
    rw [List.map_cons, List.nodup_cons] at hnd
    by_cases hid : a.id = lk.id
    · have hlk : lk = a := by
        rcases List.mem_cons.mp hmem with h | h
        · exact h
        · exact absurd (hid ▸ List.mem_map_of_mem Like.id h) hnd.1
      rw [List.eraseP_cons_of_pos (by simp [hid]), List.countP_cons, hlk]
    · have hlk : lk ∈ t := by
        rcases List.mem_cons.mp hmem with h | h
        · exact absurd (by rw [h] : a.id = lk.id) hid
        · exact h
      rw [List.eraseP_cons_of_neg (by simp [hid]), List.countP_cons, List.countP_cons]
      have := ih lk hlk hnd.2
      omega

/-- After saving a post back, looking up its id finds the saved version. -/
lemma find?_map_save (pid : Nat) (p : Post) (hp : p.id = pid) :
    ∀ (l : List Post) (post : Post), l.find? (fun q => q.id == pid) = some post →
      (l.map fun q => if q.id == p.id then p else q).find? (fun q => q.id == pid) = some p := by
  intro l
  induction l with
  | nil => intro post h; simp at h
  | cons a t ih =>
    intro post h
    by_cases ha : a.id = pid
    · rw [List.map_cons, if_pos (by simp [ha, hp])]
      exact List.find?_cons_of_pos _ (by simp [hp])
    · rw [List.find?_cons_of_neg _ (by simp [ha])] at h
      rw [List.map_cons, if_neg (by simp [ha, hp]),
        List.find?_cons_of_neg _ (by simp [ha])]
      exact ih post h

lemma findPost_savePost {s : St} {pid : Nat} {post : Post} (p : Post)
    (h : findPost s pid = some post) (hp : p.id = pid) :
    findPost (savePost s p) pid = some p :=
  find?_map_save pid p hp s.posts post h

lemma mongoLimit_length_le {n : Nat} (hn : n ≠ 0) (l : List Post) :
    (mongoLimit n l).length ≤ n := by
  rw [mongoLimit, if_neg (by simpa using hn)]
  simp [List.length_take]

lemma mongoLimit_eq_self {n : Nat} {l : List Post} (h : l.length ≤ n) :
    mongoLimit n l = l := by
  rw [mongoLimit]
  split
  · rfl
  · exact List.take_of_length_le h

lemma insertByDateDesc_perm (p : Post) (l : List Post) :
    (insertByDateDesc p l).Perm (p :: l) := by
  induction l with
  | nil => exact List.Perm.refl _
  | cons q t ih =>
    rw [insertByDateDesc]
    split
    · exact List.Perm.refl _
    · exact (ih.cons q).trans (List.Perm.swap p q t)

lemma sortByDateDesc_perm (l : List Post) : (sortByDateDesc l).Perm l := by
  induction l with
  | nil => exact List.Perm.refl _
  | cons p t ih =>
    exact (insertByDateDesc_perm p (sortByDateDesc t)).trans (ih.cons p)

lemma insertByDateDesc_sorted {p : Post} {l : List Post} (h : DateSortedDesc l) :
    DateSortedDesc (insertByDateDesc p l) := by
  induction l with
  | nil => simp [insertByDateDesc, DateSortedDesc]
  | cons q t ih =>
    rw [DateSortedDesc, List.pairwise_cons] at h
    rw [insertByDateDesc]
    split
    · rename_i hlt
      rw [DateSortedDesc, List.pairwise_cons]
      refine ⟨?_, List.pairwise_cons.mpr h⟩
      intro b hb
      rcases List.mem_cons.mp hb with rfl | hb
      · omega
      · have := h.1 b hb
        omega
    · rename_i hge
      rw [DateSortedDesc, List.pairwise_cons]
      refine ⟨?_, ih h.2⟩
      intro b hb
      have hb2 : b ∈ p :: t := (insertByDateDesc_perm p t).mem_iff.mp hb
      rcases List.mem_cons.mp hb2 with rfl | hb3
      · omega
      · exact h.1 b hb3

lemma sortByDateDesc_sorted (l : List Post) : DateSortedDesc (sortByDateDesc l) := by
  induction l with
  | nil => simp [sortByDateDesc, DateSortedDesc]
  | cons p t ih => exact insertByDateDesc_sorted ih


lemma WF_savePost {s : St} (p : Post) (h : WF s) : WF (savePost s p) := h

lemma countP_append_single (l : List Like) (a : Like) (q : Like → Bool) :
    (l ++ [a]).countP q = l.countP q + if q a then 1 else 0 := by
  rw [List.countP_append]
  simp [List.countP_cons]

/-- Saving a post whose counter matches, into a state where all other posts
match, restores the counter invariant. -/
lemma likeInv_savePost {s : St} {p : Post}
    (h1 : p.likedCount = (countLikes s p.id : Int))
    (h2 : ∀ q ∈ s.posts, q.id ≠ p.id → q.likedCount = (countLikes s q.id : Int)) :
    likeInv (savePost s p) := by
  intro q hq
  obtain ⟨a, ha, hqa⟩ := List.mem_map.mp hq
  show q.likedCount = (countLikes s q.id : Int)
  by_cases hab : (a.id == p.id) = true
  · rw [if_pos hab] at hqa
    rw [← hqa]
    exact h1
  · rw [if_neg hab] at hqa
    rw [← hqa]
    exact h2 a ha (by simpa using hab)

lemma WF_addLike {s : St} (hwf : WF s) (pid uid : Nat) :
    WF { s with
          likes := s.likes ++ [{ id := s.nextId, postId := pid, likedBy := uid }],
          nextId := s.nextId + 1 } := by
  obtain ⟨hndL, hndC, hbL, hbC, hbR⟩ := hwf
  refine ⟨?_, hndC, ?_, ?_, ?_⟩
  · rw [List.map_append, List.nodup_append]
    refine ⟨hndL, List.nodup_singleton _, ?_⟩
    intro x hx hy
    simp only [List.map_cons, List.map_nil, List.mem_singleton] at hy
    obtain ⟨l, hl, hlx⟩ := List.mem_map.mp hx
    have := hbL l hl
    omega
  · intro l hl
    rcases List.mem_append.mp hl with h | h
    · exact Nat.lt_succ_of_lt (hbL l h)
    · rw [List.mem_singleton] at h
      rw [h]
      exact Nat.lt_succ_self _
  · intro c hc
    exact Nat.lt_succ_of_lt (hbC c hc)
  · intro c hc
    have := hbR c hc
    cases hr : c.repliedTo with
    | none => simp [Option.all_none]
    | some r =>
      rw [hr] at this
      simp only [Option.all_some, decide_eq_true_eq] at this ⊢
      omega

lemma WF_eraseLike {s : St} (hwf : WF s) (p : Like → Bool) :
    WF { s with likes := s.likes.eraseP p } := by
  obtain ⟨hndL, hndC, hbL, hbC, hbR⟩ := hwf
  refine ⟨?_, hndC, ?_, hbC, hbR⟩
  · exact List.Nodup.sublist ((List.eraseP_sublist s.likes).map Like.id) hndL
  · intro l hl
    exact hbL l (List.mem_of_mem_eraseP hl)

lemma likeInv_resave (s : St) (post : Post) (hmem : post ∈ s.posts) (hinv : likeInv s) :
    likeInv (savePost s post) :=
  likeInv_savePost (hinv post hmem) (fun q hq _ => hinv q hq)

lemma likeInv_like_created (s : St) (post : Post) (pid uid : Nat)
    (hmem : post ∈ s.posts) (hpid : post.id = pid) (hinv : likeInv s) :
    likeInv (savePost
      { s with
          likes := s.likes ++ [{ id := s.nextId, postId := pid, likedBy := uid }],
          nextId := s.nextId + 1 }
      { post with likedCount := post.likedCount + 1 }) := by
  apply likeInv_savePost
  · show post.likedCount + 1 =
      ((s.likes ++ [({ id := s.nextId, postId := pid, likedBy := uid } : Like)]).countP
        (fun l => l.postId == post.id) : Int)
    rw [countP_append_single, if_pos (by simp [hpid])]
    have hpc := hinv post hmem
    rw [show countLikes s post.id = s.likes.countP (fun l => l.postId == post.id) from rfl] at hpc
    omega
  · intro q hq hne
    have hne2 : q.id ≠ post.id := hne
    show q.likedCount =
      ((s.likes ++ [({ id := s.nextId, postId := pid, likedBy := uid } : Like)]).countP
        (fun l => l.postId == q.id) : Int)
    rw [countP_append_single,
      if_neg (by
        simp only [beq_iff_eq]
        rw [← hpid]
        exact fun h => hne2 h.symm)]
    rw [Nat.add_zero]
    exact hinv q hq

lemma likeInv_like_erased (s : St) (post : Post) (lk : Like) (pid : Nat)
    (hmem : post ∈ s.posts) (hpid : post.id = pid)
    (hlmem : lk ∈ s.likes) (hlpid : lk.postId = pid)
    (hnd : (s.likes.map Like.id).Nodup) (hinv : likeInv s) :
    likeInv (savePost { s with likes := s.likes.eraseP fun l => l.id == lk.id }
      { post with likedCount := post.likedCount - 1 }) := by
  apply likeInv_savePost
  · show post.likedCount - 1 =
      (((s.likes.eraseP fun l => l.id == lk.id).countP fun l => l.postId == post.id) : Int)
    have herase := countP_eraseP_like (fun l => l.postId == post.id) s.likes lk hlmem hnd
    rw [if_pos (by simp [hlpid, hpid])] at herase
    have hpc := hinv post hmem
    rw [show countLikes s post.id = s.likes.countP (fun l => l.postId == post.id) from rfl] at hpc
    omega
  · intro q hq hne
    have hne2 : q.id ≠ post.id := hne
    show q.likedCount =
      (((s.likes.eraseP fun l => l.id == lk.id).countP fun l => l.postId == q.id) : Int)
    have herase := countP_eraseP_like (fun l => l.postId == q.id) s.likes lk hlmem hnd
    rw [if_neg (by
      simp only [beq_iff_eq]
      rw [hlpid, ← hpid]
      exact fun h => hne2 h.symm)] at herase
    have hqc := hinv q hq
    rw [show countLikes s q.id = s.likes.countP (fun l => l.postId == q.id) from rfl] at hqc
    omega

lemma applyOp_preserves (s : St) (op : Op) (hwf : WF s) (hinv : likeInv s) :
    WF (applyOp s op) ∧ likeInv (applyOp s op) := by
  cases op with
  | like pid uid =>
    cases hfp : findPost s pid with
    | none =>
      simp only [applyOp, likePost, hfp]
      exact ⟨hwf, hinv⟩
    | some post =>
      obtain ⟨hmem, hpid⟩ := findPost_eq_some hfp
      cases hfl : findLike s pid uid with
      | some lk =>
        simp only [applyOp, likePost, hfp, hfl]
        exact ⟨WF_savePost post hwf, likeInv_resave s post hmem hinv⟩
      | none =>
        simp only [applyOp, likePost, hfp, hfl]
        exact ⟨WF_savePost _ (WF_addLike hwf pid uid),
          likeInv_like_created s post pid uid hmem hpid hinv⟩
  | unlike pid uid =>
    cases hfp : findPost s pid with
    | none =>
      simp only [applyOp, unlikePost, hfp]
      exact ⟨hwf, hinv⟩
    | some post =>
      obtain ⟨hmem, hpid⟩ := findPost_eq_some hfp
      cases hfl : findLike s pid uid with
      | none =>
        simp only [applyOp, unlikePost, hfp, hfl]
        exact ⟨WF_savePost post hwf, likeInv_resave s post hmem hinv⟩
      | some lk =>
        obtain ⟨hlmem, hlpid, _⟩ := findLike_eq_some hfl
        simp only [applyOp, unlikePost, hfp, hfl]
        exact ⟨WF_savePost _ (WF_eraseLike hwf _),
          likeInv_like_erased s post lk pid hmem hpid hlmem hlpid hwf.1 hinv⟩

lemma applyOps_preserves (ops : List Op) :
    ∀ (s : St), WF s → likeInv s → WF (applyOps s ops) ∧ likeInv (applyOps s ops) := by
  induction ops with
  | nil => intro s hwf hinv; exact ⟨hwf, hinv⟩
  | cons op rest ih =>
    intro s hwf hinv
    obtain ⟨hwf2, hinv2⟩ := applyOp_preserves s op hwf hinv
    exact ih _ hwf2 hinv2

lemma countP_congr_mem {α : Type} {l : List α} {p q : α → Bool} (h : ∀ a ∈ l, p a = q a) :
    l.countP p = l.countP q := by
  induction l with
  | nil => rfl
  | cons a t ih =>
    rw [List.countP_cons, List.countP_cons, h a (List.mem_cons_self a t),
      ih fun x hx => h x (List.mem_cons_of_mem a hx)]

lemma countP_append_one {α : Type} (l : List α) (a : α) (q : α → Bool) :
    (l ++ [a]).countP q = l.countP q + if q a then 1 else 0 := by
  rw [List.countP_append]
  simp [List.countP_cons]

lemma map_save_comment_ids (l : List Comment) (c : Comment) :
    (l.map fun q => if q.id == c.id then c else q).map Comment.id = l.map Comment.id := by
  rw [List.map_map]
  apply List.map_congr_left
  intro a ha
  simp only [Function.comp_apply]
  by_cases h : (a.id == c.id) = true
  · rw [if_pos h]
    exact (beq_iff_eq.mp h).symm
  · rw [if_neg h]

lemma WF_saveComment {s : St} (c : Comment) (hwf : WF s)
    (hcid : c.id < s.nextId)
    (hrep : c.repliedTo.all (fun r => decide (r < s.nextId)) = true) :
    WF (saveComment s c) := by
  obtain ⟨hndL, hndC, hbL, hbC, hbR⟩ := hwf
  refine ⟨hndL, ?_, hbL, ?_, ?_⟩
  · show ((s.comments.map fun q => if q.id == c.id then c else q).map Comment.id).Nodup
    rw [map_save_comment_ids]
    exact hndC
  · intro x hx
    obtain ⟨a, ha, hfa⟩ := List.mem_map.mp hx
    by_cases h : (a.id == c.id) = true
    · rw [if_pos h] at hfa
      rw [← hfa]
      exact hcid
    · rw [if_neg h] at hfa
      rw [← hfa]
      exact hbC a ha
  · intro x hx
    obtain ⟨a, ha, hfa⟩ := List.mem_map.mp hx
    by_cases h : (a.id == c.id) = true
    · rw [if_pos h] at hfa
      rw [← hfa]
      exact hrep
    · rw [if_neg h] at hfa
      rw [← hfa]
      exact hbR a ha

lemma WF_addComment {s : St} (hwf : WF s) (pid uid : Nat) (body : String)
    (repliedTo : Option Nat)
    (hr : repliedTo.all (fun r => decide (r < s.nextId)) = true) :
    WF { s with comments := s.comments ++ [mkComment s.nextId pid uid body repliedTo],
                nextId := s.nextId + 1 } := by
  obtain ⟨hndL, hndC, hbL, hbC, hbR⟩ := hwf
  refine ⟨hndL, ?_, ?_, ?_, ?_⟩
  · rw [List.map_append, List.nodup_append]
    refine ⟨hndC, List.nodup_singleton _, ?_⟩
    intro x hx hy
    simp only [List.map_cons, List.map_nil, List.mem_singleton, mkComment] at hy
    obtain ⟨c, hc, hcx⟩ := List.mem_map.mp hx
    have := hbC c hc
    omega
  · intro l hl
    exact Nat.lt_succ_of_lt (hbL l hl)
  · intro c hc
    rcases List.mem_append.mp hc with h | h
    · exact Nat.lt_succ_of_lt (hbC c h)
    · rw [List.mem_singleton] at h
      rw [h]
      show s.nextId < s.nextId + 1
      exact Nat.lt_succ_self _
  · intro c hc
    rcases List.mem_append.mp hc with h | h
    · have := hbR c h
      cases hr2 : c.repliedTo with
      | none => simp [Option.all_none]
      | some r =>
        rw [hr2] at this
        simp only [Option.all_some, decide_eq_true_eq] at this ⊢
        omega
    · rw [List.mem_singleton] at h
      rw [h]
      show repliedTo.all _ = true
      cases hr2 : repliedTo with
      | none => simp [Option.all_none]
      | some r =>
        rw [hr2] at hr
        simp only [Option.all_some, decide_eq_true_eq] at hr ⊢
        omega

lemma replyInv_comment_created_top (s : St) (pid uid : Nat) (body : String) (post1 : Post)
    (hwf : WF s) (hinv : replyInv s) :
    replyInv (savePost
      { s with comments := s.comments ++ [mkComment s.nextId pid uid body none],
               nextId := s.nextId + 1 } post1) := by
  obtain ⟨hndL, hndC, hbL, hbC, hbR⟩ := hwf
  intro c2 hc2 htop
  have hmem : c2 ∈ s.comments ++ [mkComment s.nextId pid uid body none] := hc2
  show c2.replyCount = (((s.comments ++ [mkComment s.nextId pid uid body none]).countP
    fun c => c.repliedTo == some c2.id) : Int)
  rcases List.mem_append.mp hmem with h | h
  · rw [countP_append_one, if_neg (by simp [mkComment]), Nat.add_zero]
    exact hinv c2 h htop
  · rw [List.mem_singleton] at h
    have hzero : ((s.comments ++ [mkComment s.nextId pid uid body none]).countP
        fun c => c.repliedTo == some c2.id) = 0 := by
      rw [List.countP_eq_zero]
      intro a ha
      rcases List.mem_append.mp ha with h2 | h2
      · have := hbR a h2
        cases hra : a.repliedTo with
        | none => simp
        | some r =>
          rw [hra] at this
          simp only [Option.all_some, decide_eq_true_eq] at this
          have hcid : c2.id = s.nextId := by rw [h, mkComment]
          simp only [beq_iff_eq, Option.some_inj, hcid]
          omega
      · rw [List.mem_singleton] at h2
        rw [h2]
        simp [mkComment]
    rw [hzero]
    rw [h]
    rfl

lemma replyInv_comment_created_reply (s : St) (pid uid rid : Nat) (body : String)
    (post1 : Post) (parent : Comment)
    (hfc : findComment s rid = some parent) (hwf : WF s) (hinv : replyInv s) :
    replyInv (saveComment
      (savePost
        { s with comments := s.comments ++ [mkComment s.nextId pid uid body (some rid)],
                 nextId := s.nextId + 1 } post1)
      { parent with replyCount := parent.replyCount + 1 }) := by
  obtain ⟨hmemP, hparid⟩ := findComment_eq_some hfc
  obtain ⟨hndL, hndC, hbL, hbC, hbR⟩ := hwf
  have hparlt : parent.id < s.nextId := hbC parent hmemP
  intro c2 hc2 htop
  have hmem : c2 ∈ (s.comments ++ [mkComment s.nextId pid uid body (some rid)]).map
      fun q => if q.id == parent.id then { parent with replyCount := parent.replyCount + 1 }
               else q := hc2
  have hcount : ∀ x : Nat,
      (((s.comments ++ [mkComment s.nextId pid uid body (some rid)]).map
        fun q => if q.id == parent.id then { parent with replyCount := parent.replyCount + 1 }
                 else q).countP fun c => c.repliedTo == some x) =
      ((s.comments ++ [mkComment s.nextId pid uid body (some rid)]).countP
        fun c => c.repliedTo == some x) := by
    intro x
    rw [List.countP_map]
    apply countP_congr_mem
    intro a ha
    simp only [Function.comp_apply]
    by_cases h : (a.id == parent.id) = true
    · have haeq : a = parent := by
        rcases List.mem_append.mp ha with h2 | h2
        · exact List.inj_on_of_nodup_map hndC h2 hmemP (by simpa using h)
        · rw [List.mem_singleton] at h2
          rw [h2, mkComment] at h
          simp only [beq_iff_eq] at h
          omega
      rw [if_pos h, haeq]
    · rw [if_neg h]
  show c2.replyCount = ((((s.comments ++ [mkComment s.nextId pid uid body (some rid)]).map
    fun q => if q.id == parent.id then { parent with replyCount := parent.replyCount + 1 }
             else q).countP fun c => c.repliedTo == some c2.id) : Int)
  rw [hcount]
  obtain ⟨a, ha, hfa⟩ := List.mem_map.mp hmem
  by_cases h : (a.id == parent.id) = true
  · rw [if_pos h] at hfa
    have haeq : a = parent := by
      rcases List.mem_append.mp ha with h2 | h2
      · exact List.inj_on_of_nodup_map hndC h2 hmemP (by simpa using h)
      · rw [List.mem_singleton] at h2
        rw [h2, mkComment] at h
        simp only [beq_iff_eq] at h
        omega
    have hrt : parent.repliedTo = none := by
      have : c2.repliedTo = parent.repliedTo := by rw [← hfa]
      rw [← this]
      exact htop
    have hpc := hinv parent hmemP hrt
    have hcnt2 : ((s.comments ++ [mkComment s.nextId pid uid body (some rid)]).countP
        fun c => c.repliedTo == some c2.id) = countReplies s parent.id + 1 := by
      have hc2id : c2.id = parent.id := by rw [← hfa]
      rw [countP_append_one, hc2id,
        if_pos (by simp [mkComment, hparid])]
      rfl
    rw [hcnt2]
    have hrc : c2.replyCount = parent.replyCount + 1 := by rw [← hfa]
    rw [hrc, hpc]
    push_cast
    ring
  · rw [if_neg h] at hfa
    rw [← hfa] at htop ⊢
    have haP : a ∈ s.comments := by
      rcases List.mem_append.mp ha with h2 | h2
      · exact h2
      · rw [List.mem_singleton] at h2
        rw [h2, mkComment] at htop
        cases htop
    have hcnt2 : ((s.comments ++ [mkComment s.nextId pid uid body (some rid)]).countP
        fun c => c.repliedTo == some a.id) = countReplies s a.id := by
      rw [countP_append_one,
        if_neg (by
          simp only [mkComment, beq_iff_eq, Option.some_inj]
          intro heq
          apply h
          simp only [beq_iff_eq]
          omega),
        Nat.add_zero]
      rfl
    rw [hcnt2]
    exact hinv a haP htop

lemma applyCommentOp_preserves (s : St) (a : CArg) (hwf : WF s) (hinv : replyInv s) :
    WF (applyCommentOp s a) ∧ replyInv (applyCommentOp s a) := by
  obtain ⟨pid, uid, body, repliedTo⟩ := a
  cases hfp : findPost s pid with
  | none =>
    simp only [applyCommentOp, createComment, hfp]
    exact ⟨hwf, hinv⟩
  | some post =>
    cases hrt : repliedTo with
    | none =>
      simp only [applyCommentOp, createComment, hfp, Option.none_bind]
      exact ⟨WF_savePost _ (WF_addComment hwf pid uid body none (by simp [Option.all_none])),
        replyInv_comment_created_top s pid uid body _ hwf hinv⟩
    | some rid =>
      cases hfc : findComment s rid with
      | none =>
        simp only [applyCommentOp, createComment, hfp, Option.some_bind, hfc]
        exact ⟨hwf, hinv⟩
      | some parent =>
        obtain ⟨hmemP, hparid⟩ := findComment_eq_some hfc
        by_cases hpp : (parent.postId == pid) = true
        · simp only [applyCommentOp, createComment, hfp, Option.some_bind, hfc, hpp,
            Bool.not_true, Bool.false_eq_true, if_false]
          refine ⟨?_, replyInv_comment_created_reply s pid uid rid body _ parent hfc hwf hinv⟩
          apply WF_saveComment
          · exact WF_savePost _ (WF_addComment hwf pid uid body (some rid) (by
              simp only [Option.all_some, decide_eq_true_eq]
              rw [← hparid]
              exact hwf.2.2.2.1 parent hmemP))
          · show parent.id < s.nextId + 1
            exact Nat.lt_succ_of_lt (hwf.2.2.2.1 parent hmemP)
          · show parent.repliedTo.all (fun r => decide (r < s.nextId + 1)) = true
            have := hwf.2.2.2.2 parent hmemP
            cases hpr : parent.repliedTo with
            | none => simp [Option.all_none]
            | some r =>
              rw [hpr] at this
              simp only [Option.all_some, decide_eq_true_eq] at this ⊢
              omega
        · have hb : (parent.postId == pid) = false := by simpa using hpp
          simp only [applyCommentOp, createComment, hfp, Option.some_bind, hfc, hb,
            Bool.not_false, if_true]
          exact ⟨hwf, hinv⟩

lemma applyComments_preserves (ops : List CArg) :
    ∀ (s : St), WF s → replyInv s → WF (applyComments s ops) ∧ replyInv (applyComments s ops) := by
  induction ops with
  | nil => intro s hwf hinv; exact ⟨hwf, hinv⟩
  | cons a rest ih =>
    intro s hwf hinv
    obtain ⟨hwf2, hinv2⟩ := applyCommentOp_preserves s a hwf hinv
    exact ih _ hwf2 hinv2

lemma getFeedAuth_eq_anon : getFeedAuth = getFeedAnon := rfl

lemma mapM_feedEntry_length (s : St) :
    ∀ (l : List Post) (es : List FeedEntry), l.mapM (feedEntry s) = some es →
      es.length = l.length := by
  intro l
  induction l with
  | nil =>
    intro es h
    rw [List.mapM_nil] at h
    cases h
    rfl
  | cons p t ih =>
    intro es h
    rw [List.mapM_cons] at h
    cases hfe : feedEntry s p with
    | none => rw [hfe] at h; simp at h
    | some e =>
      rw [hfe] at h
      cases hmt : List.mapM (feedEntry s) t with
      | none => rw [hmt] at h; simp at h
      | some es2 =>
        rw [hmt] at h
        simp only [Option.bind_eq_bind, Option.some_bind, Option.pure_def,
          Option.some_inj] at h
        rw [← h, List.length_cons, List.length_cons, ih es2 hmt]

lemma mapM_feedEntry_some (s : St) :
    ∀ (l : List Post), (∀ p ∈ l, (feedEntry s p).isSome) →
      ∃ es, l.mapM (feedEntry s) = some es ∧ es.map FeedEntry.post = l ∧
        ∀ e ∈ es, e.locked = e.post.tier.isSome := by
  intro l
  induction l with
  | nil =>
    intro _
    refine ⟨[], by rw [List.mapM_nil]; rfl, rfl, ?_⟩
    intro e he
    cases he
  | cons p t ih =>
    intro h
    obtain ⟨es2, hes2, hmap, hlock⟩ := ih fun q hq => h q (List.mem_cons_of_mem p hq)
    have hp := h p (List.mem_cons_self p t)
    cases hfe : feedEntry s p with
    | none => rw [hfe] at hp; cases hp
    | some e =>
      have hshape : e.post = p ∧ e.locked = p.tier.isSome := by
        simp only [feedEntry] at hfe
        cases hfu : findUser s p.creator with
        | none => rw [hfu] at hfe; cases hfe
        | some u =>
          rw [hfu] at hfe
          simp only [Option.some_inj] at hfe
          rw [← hfe]
          exact ⟨rfl, rfl⟩
      refine ⟨e :: es2, ?_, ?_, ?_⟩
      · rw [List.mapM_cons, hfe, hes2]
        rfl
      · rw [List.map_cons, hmap, hshape.1]
      · intro x hx
        rcases List.mem_cons.mp hx with rfl | hx2
        · rw [hshape.2, hshape.1]
        · exact hlock x hx2

/-- C1: for every post, after any finite sequence of like/unlike operations
(each counter read-modify-write atomic, i.e. sequential), `likedCount` equals
the number of Like records whose `postId` is the post's id — the invariant
`likeInv` is preserved from any well-formed state in which it holds.  The
proof does not even need the operations to come from distinct users. -/
theorem likedCount_matches_like_records (s : St) (ops : List Op)
    (hwf : WF s) (hinv : likeInv s) : likeInv (applyOps s ops) :=
  (applyOps_preserves ops s hwf hinv).2

theorem likedCount_matches_like_records_witness :
    likeInv (applyOps w1St [Op.like 1 2, Op.like 1 2, Op.unlike 1 3, Op.unlike 1 2]) :=
  likedCount_matches_like_records w1St
    [Op.like 1 2, Op.like 1 2, Op.unlike 1 3, Op.unlike 1 2] (by decide) (by decide)

/-- C3: `createComment` on an existing post with a `repliedTo` id that does not
resolve to a comment of the same post fails with NotFound and leaves the
storage unchanged (no Comment created, `commentCount` untouched). -/
theorem createComment_bad_reply (s : St) (pid uid : Nat) (body : String) (rid : Nat)
    (post : Post) (hp : findPost s pid = some post)
    (hbad : ∀ c, findComment s rid = some c → ¬(c.postId = pid)) :
    createComment s pid uid body (some rid) = .error .notFound ∧
    applyCommentOp s { pid := pid, uid := uid, body := body, repliedTo := some rid } = s := by
  have herr : createComment s pid uid body (some rid) = .error .notFound := by
    cases hfc : findComment s rid with
    | none =>
      simp only [createComment, hp, Option.some_bind, hfc]
      rfl
    | some c =>
      have hc : (c.postId == pid) = false := by simpa using hbad c hfc
      simp only [createComment, hp, Option.some_bind, hfc, hc, Bool.not_false, if_true]
  refine ⟨herr, ?_⟩
  simp only [applyCommentOp]
  rw [herr]

theorem createComment_bad_reply_witness :
    createComment w3St 0 5 "b" (some 1) = .error .notFound ∧
    applyCommentOp w3St { pid := 0, uid := 5, body := "b", repliedTo := some 1 } = w3St :=
  createComment_bad_reply w3St 0 5 "b" 1 cexFree rfl
    (by
      intro c hc
      have h2 : some w3C = some c := hc
      cases h2
      decide)

/-- C6: `getPostById` on a gated Meal post with a populated meal returns, for an
anonymous viewer, the same post with the meal's ingredients and steps emptied
(all other post fields unchanged), and for an authenticated viewer the full
unredacted meal. -/
theorem getPostById_redaction (s : St) (pid tid mid uid : Nat) (post : Post) (m : Meal)
    (hp : findPost s pid = some post) (ht : post.tier = some tid)
    (hm : post.meal = some mid) (hfm : findMeal s mid = some m) :
    getPostById s pid none =
      .ok { post := post, mealDoc := some { m with ingredients := [], steps := [] } } ∧
    getPostById s pid (some uid) = .ok { post := post, mealDoc := some m } := by
  constructor
  · simp only [getPostById, hp, hm, Option.some_bind, hfm, ht, Option.isSome_some,
      Option.isNone_none, Bool.and_self, if_true]
  · simp only [getPostById, hp, hm, Option.some_bind, hfm, ht, Option.isSome_some,
      Option.isNone_some, Bool.and_false, Bool.false_eq_true, if_false]

theorem getPostById_redaction_witness :
    getPostById w6St 0 none =
      .ok { post := w6Post, mealDoc := some { w6Meal with ingredients := [], steps := [] } } ∧
    getPostById w6St 0 (some 9) = .ok { post := w6Post, mealDoc := some w6Meal } :=
  getPostById_redaction w6St 0 3 20 9 w6Post w6Meal rfl rfl rfl rfl

/-- C7: `unlikePost` fails with NotFound when the post is absent; when the post
exists but the caller holds no Like, it succeeds returning the post with
`likedCount` unchanged, deletes no Like record, and still persists the post. -/
theorem unlikePost_spec (s : St) (pid uid : Nat) :
    (findPost s pid = none → unlikePost s pid uid = .error .notFound) ∧
    (∀ post, findPost s pid = some post → findLike s pid uid = none →
      unlikePost s pid uid = .ok (post, savePost s post) ∧
      (savePost s post).likes = s.likes ∧
      findPost (savePost s post) pid = some post) := by
  constructor
  · intro h
    simp only [unlikePost, h]
  · intro post hp hfl
    obtain ⟨hmem, hpid⟩ := findPost_eq_some hp
    exact ⟨by simp only [unlikePost, hp, hfl], rfl, findPost_savePost post hp hpid⟩

theorem unlikePost_spec_witness :
    unlikePost w7St 99 2 = .error .notFound ∧
    (unlikePost w7St 0 2 = .ok (w7Post, savePost w7St w7Post) ∧
      (savePost w7St w7Post).likes = w7St.likes ∧
      findPost (savePost w7St w7Post) 0 = some w7Post) :=
  ⟨(unlikePost_spec w7St 99 2).1 rfl, (unlikePost_spec w7St 0 2).2 w7Post rfl rfl⟩

/-- C9: `getFeed` returns exactly the same entries for an authenticated viewer
as for an anonymous one: the two branches of the feed assembler are
extensionally equal. -/
theorem feed_anon_auth_agree :
    ∀ (s : St) (u : Nat) (limit skip : Nat),
      getFeed s (some u) limit skip = getFeed s none limit skip :=
  fun _ _ _ _ => rfl

/-- C10: `getPostById` on a gated post whose meal reference is null, called
anonymously, does not return the post: the redaction branch dereferences the
absent meal and the request ends in the error path. -/
theorem getPostById_gated_no_meal_errors (s : St) (pid tid : Nat) (post : Post)
    (hp : findPost s pid = some post) (ht : post.tier = some tid) (hm : post.meal = none) :
    getPostById s pid none = .error .typeError ∧
    ∀ pp : PopulatedPost, getPostById s pid none ≠ .ok pp := by
  have herr : getPostById s pid none = .error .typeError := by
    simp only [getPostById, hp, hm, Option.none_bind, ht, Option.isSome_some,
      Option.isNone_none, Bool.and_self, if_true]
  refine ⟨herr, ?_⟩
  intro pp h
  rw [herr] at h
  cases h

theorem getPostById_gated_no_meal_errors_witness :
    getPostById w10St 0 none = .error .typeError :=
  (getPostById_gated_no_meal_errors w10St 0 4 w10Post rfl rfl rfl).1

/-- C2: liking twice with the same `(postId, userId)` leaves `likedCount` at
the value after the first like, exactly one Like record exists for the pair,
and the post is persisted by each call (including the second, no-op one). -/
theorem likePost_idempotent (s : St) (pid uid : Nat) (post : Post)
    (hp : findPost s pid = some post) (huniq : countPair s pid uid ≤ 1) :
    ∃ p1 s1 p2 s2,
      likePost s pid uid = .ok (p1, s1) ∧
      likePost s1 pid uid = .ok (p2, s2) ∧
      p2.likedCount = p1.likedCount ∧
      countPair s2 pid uid = 1 ∧
      findPost s2 pid = some p2 := by
  obtain ⟨hmem, hpid⟩ := findPost_eq_some hp
  cases hfl : findLike s pid uid with
  | none =>
    have hpair0 : countPair s pid uid = 0 := by
      rw [countPair, List.countP_eq_zero]
      rw [findLike, List.find?_eq_none] at hfl
      exact hfl
    set p1 : Post := { post with likedCount := post.likedCount + 1 } with hp1
    set sMid : St := { s with
      likes := s.likes ++ [{ id := s.nextId, postId := pid, likedBy := uid }],
      nextId := s.nextId + 1 } with hsMid
    have hfirst : likePost s pid uid = .ok (p1, savePost sMid p1) := by
      simp only [likePost, hp, hfl]
    have hfp1 : findPost (savePost sMid p1) pid = some p1 :=
      findPost_savePost p1 (hp : findPost sMid pid = some post) hpid
    have hfl1 : findLike (savePost sMid p1) pid uid =
        some { id := s.nextId, postId := pid, likedBy := uid } := by
      show (s.likes ++ [({ id := s.nextId, postId := pid, likedBy := uid } : Like)]).find? _ =
        _
      rw [List.find?_append]
      rw [findLike] at hfl
      rw [hfl]
      rw [Option.none_or]
      exact List.find?_cons_of_pos _ (by simp)
    have hsecond : likePost (savePost sMid p1) pid uid =
        .ok (p1, savePost (savePost sMid p1) p1) := by
      simp only [likePost, hfp1, hfl1]
    refine ⟨p1, savePost sMid p1, p1, savePost (savePost sMid p1) p1,
      hfirst, hsecond, rfl, ?_, ?_⟩
    · show (s.likes ++ [({ id := s.nextId, postId := pid, likedBy := uid } : Like)]).countP
        (fun l => l.postId == pid && l.likedBy == uid) = 1
      rw [countP_append_one]
      rw [countPair] at hpair0
      rw [hpair0]
      simp
    · exact findPost_savePost p1 hfp1 hpid
  | some lk =>
    have hpair1 : countPair s pid uid = 1 := by
      have hge : 0 < countPair s pid uid := by
        rw [findLike] at hfl
        rw [countPair, List.countP_pos]
        exact ⟨lk, List.mem_of_find?_eq_some hfl,
          @List.find?_some Like (fun l => l.postId == pid && l.likedBy == uid) lk s.likes hfl⟩
      omega
    have hfirst : likePost s pid uid = .ok (post, savePost s post) := by
      simp only [likePost, hp, hfl]
    have hfp1 : findPost (savePost s post) pid = some post := findPost_savePost post hp hpid
    have hfl1 : findLike (savePost s post) pid uid = some lk := hfl
    have hsecond : likePost (savePost s post) pid uid =
        .ok (post, savePost (savePost s post) post) := by
      simp only [likePost, hfp1, hfl1]
    refine ⟨post, savePost s post, post, savePost (savePost s post) post,
      hfirst, hsecond, rfl, ?_, ?_⟩
    · exact hpair1
    · exact findPost_savePost post hfp1 hpid

theorem likePost_idempotent_witness :
    ∃ p1 s1 p2 s2,
      likePost w2St 1 4 = .ok (p1, s1) ∧
      likePost s1 1 4 = .ok (p2, s2) ∧
      p2.likedCount = p1.likedCount ∧
      countPair s2 1 4 = 1 ∧
      findPost s2 1 = some p2 :=
  likePost_idempotent w2St 1 4 w2Post rfl (by decide)

/-- C4 (amended): `getFeed` queries each bucket with sub-limit
`limit/2 + limit%2` and sub-skip `skip/2 + skip%2` (floor), so for `limit ≥ 1`
the number of returned entries is at most `limit + limit % 2` — at most
`limit` when `limit` is even, but up to `limit + 1` when `limit` is odd. -/
theorem getFeed_length_le (s : St) (v : Option Nat) (limit skip : Nat)
    (es : List FeedEntry) (hl : 1 ≤ limit) (h : getFeed s v limit skip = some es) :
    es.length ≤ limit + limit % 2 := by
  have hhalf : half limit ≠ 0 := by
    rw [half]
    omega
  have hbound : ∀ (l1 l2 : List Post) (es2 : List FeedEntry),
      (l1 ++ l2).mapM (feedEntry s) = some es2 →
      l1.length ≤ half limit → l2.length ≤ half limit →
      es2.length ≤ limit + limit % 2 := by
    intro l1 l2 es2 hm h1 h2
    have hlen := mapM_feedEntry_length s (l1 ++ l2) es2 hm
    rw [List.length_append] at hlen
    rw [half] at h1 h2
    omega
  cases v with
  | none =>
    exact hbound (freeBucketAnon s limit skip) (gatedBucketAnon s limit skip) es h
      (mongoLimit_length_le hhalf _) (mongoLimit_length_le hhalf _)
  | some u =>
    exact hbound (freeBucketAuth s limit skip) (gatedBucketAuth s limit skip) es h
      (mongoLimit_length_le hhalf _) (mongoLimit_length_le hhalf _)

theorem getFeed_length_le_witness :
    ([cexEntry1, cexEntry2] : List FeedEntry).length ≤ 10 + 10 % 2 :=
  getFeed_length_le cexSt none 10 0 [cexEntry1, cexEntry2] (by decide) (by decide)

/-- C4 (counterexample to the claim as stated): with one free and one gated
post stored, `getFeed` with `limit = 1` returns 2 entries, exceeding the
requested limit — the per-bucket sub-limit `floor(1/2) + 1%2 = 1` applies to
each of the two buckets independently. -/
theorem getFeed_limit_exceeded_cex :
    ((getFeed cexSt none 1 0).getD []).length = 2 ∧
    ¬ ((getFeed cexSt none 1 0).getD []).length ≤ 1 :=
  ⟨by decide, by decide⟩

/-- C5: when all stored posts fit within the page (each bucket within the
sub-limit, `skip = 0`) and every creator resolves, `getFeed` returns all free
posts sorted by date descending followed by all gated posts sorted by date
descending — concatenated, not re-sorted — and each entry's `locked` flag is
set exactly when the post's tier is non-null. -/
theorem getFeed_bucket_order (s : St) (v : Option Nat) (limit : Nat)
    (hfree : (s.posts.filter fun p => p.tier.isNone).length ≤ half limit)
    (hgated : (s.posts.filter fun p => p.tier.isSome).length ≤ half limit)
    (hcreators : ∀ p ∈ s.posts, (feedEntry s p).isSome) :
    ∃ es, getFeed s v limit 0 = some es ∧
      es.map FeedEntry.post =
        sortByDateDesc (s.posts.filter fun p => p.tier.isNone) ++
          sortByDateDesc (s.posts.filter fun p => p.tier.isSome) ∧
      (sortByDateDesc (s.posts.filter fun p => p.tier.isNone)).Perm
        (s.posts.filter fun p => p.tier.isNone) ∧
      (sortByDateDesc (s.posts.filter fun p => p.tier.isSome)).Perm
        (s.posts.filter fun p => p.tier.isSome) ∧
      DateSortedDesc (sortByDateDesc (s.posts.filter fun p => p.tier.isNone)) ∧
      DateSortedDesc (sortByDateDesc (s.posts.filter fun p => p.tier.isSome)) ∧
      ∀ e ∈ es, e.locked = e.post.tier.isSome := by
  have hfree2 : freeBucketAnon s limit 0 =
      sortByDateDesc (s.posts.filter fun p => p.tier.isNone) := by
    rw [freeBucketAnon, show half 0 = 0 from rfl, List.drop_zero]
    apply mongoLimit_eq_self
    rw [(sortByDateDesc_perm _).length_eq]
    exact hfree
  have hgated2 : gatedBucketAnon s limit 0 =
      sortByDateDesc (s.posts.filter fun p => p.tier.isSome) := by
    rw [gatedBucketAnon, show half 0 = 0 from rfl, List.drop_zero]
    apply mongoLimit_eq_self
    rw [(sortByDateDesc_perm _).length_eq]
    exact hgated
  have hall : ∀ p ∈ freeBucketAnon s limit 0 ++ gatedBucketAnon s limit 0,
      (feedEntry s p).isSome := by
    intro p hp
    rcases List.mem_append.mp hp with h | h
    · rw [hfree2] at h
      exact hcreators p (List.mem_of_mem_filter ((sortByDateDesc_perm _).mem_iff.mp h))
    · rw [hgated2] at h
      exact hcreators p (List.mem_of_mem_filter ((sortByDateDesc_perm _).mem_iff.mp h))
  obtain ⟨es, hes, hmap, hlock⟩ :=
    mapM_feedEntry_some s (freeBucketAnon s limit 0 ++ gatedBucketAnon s limit 0) hall
  refine ⟨es, ?_, ?_, sortByDateDesc_perm _, sortByDateDesc_perm _,
    sortByDateDesc_sorted _, sortByDateDesc_sorted _, hlock⟩
  · cases v with
    | none => exact hes
    | some u => exact hes
  · rw [hmap, hfree2, hgated2]

theorem getFeed_bucket_order_witness :
    ∃ es, getFeed w5St none 10 0 = some es ∧
      es.map FeedEntry.post =
        sortByDateDesc (w5St.posts.filter fun p => p.tier.isNone) ++
          sortByDateDesc (w5St.posts.filter fun p => p.tier.isSome) ∧
      (sortByDateDesc (w5St.posts.filter fun p => p.tier.isNone)).Perm
        (w5St.posts.filter fun p => p.tier.isNone) ∧
      (sortByDateDesc (w5St.posts.filter fun p => p.tier.isSome)).Perm
        (w5St.posts.filter fun p => p.tier.isSome) ∧
      DateSortedDesc (sortByDateDesc (w5St.posts.filter fun p => p.tier.isNone)) ∧
      DateSortedDesc (sortByDateDesc (w5St.posts.filter fun p => p.tier.isSome)) ∧
      ∀ e ∈ es, e.locked = e.post.tier.isSome :=
  getFeed_bucket_order w5St none 10 (by decide) (by decide) (by decide)

/-- C8: (a) for every top-level comment, after any sequence of `createComment`
requests, `replyCount` equals the number of Comment records replying to it
(the invariant `replyInv` is preserved from any well-formed state); (b) on a
successful reply, the event trace places the parent's `replyCount` save after
the client-visible response but still within the request. -/
theorem replyCount_invariant :
    (∀ (s : St) (ops : List CArg), WF s → replyInv s → replyInv (applyComments s ops)) ∧
    (∀ (s : St) (pid uid rid : Nat) (body : String) (parent c : Comment) (s2 : St)
        (tr : List Ev),
      findComment s rid = some parent →
      createComment s pid uid body (some rid) = .ok (c, s2, tr) →
      ∃ l1 l2, tr = l1 ++ Ev.respond c :: l2 ∧
        Ev.saveComment { parent with replyCount := parent.replyCount + 1 } ∈ l2) := by
  constructor
  · intro s ops hwf hinv
    exact (applyComments_preserves ops s hwf hinv).2
  · intro s pid uid rid body parent c s2 tr hfc hcc
    cases hfp : findPost s pid with
    | none =>
      simp only [createComment, hfp] at hcc
      exact Except.noConfusion hcc
    | some post =>
      by_cases hpp : (parent.postId == pid) = true
      · simp only [createComment, hfp, Option.some_bind, hfc, hpp, Bool.not_true,
          Bool.false_eq_true, if_false] at hcc
        simp only [Except.ok.injEq, Prod.mk.injEq] at hcc
        obtain ⟨hc, hs2, htr⟩ := hcc
        refine ⟨[Ev.saveComment c,
            Ev.savePost { post with commentCount := post.commentCount + 1 }],
          [Ev.saveComment { parent with replyCount := parent.replyCount + 1 }], ?_, ?_⟩
        · rw [← htr, hc]
          rfl
        · exact List.mem_singleton.mpr rfl
      · have hb : (parent.postId == pid) = false := by simpa using hpp
        simp only [createComment, hfp, Option.some_bind, hfc, hb, Bool.not_false,
          if_true] at hcc
        exact Except.noConfusion hcc

theorem replyCount_invariant_witness :
    replyInv (applyComments w8St
      [({ pid := 0, uid := 7, body := "r", repliedTo := some 1 } : CArg)]) ∧
    (∃ l1 l2, w8Tr = l1 ++ Ev.respond w8C :: l2 ∧ Ev.saveComment w8Parent1 ∈ l2) :=
  ⟨replyCount_invariant.1 w8St
      [({ pid := 0, uid := 7, body := "r", repliedTo := some 1 } : CArg)]
      (by decide) (by decide),
    replyCount_invariant.2 w8St 0 7 1 "r" w8Parent w8C _ w8Tr rfl rfl⟩
